import Mathlib

/-!
Verification development for the libelektra snapshot in this repository.

Part 1 models the contextual resolution and caching core (Coordinator /
ThreadContext / ThreadValue).  The C++ implementation of that core
(kdbcontext.hpp / kdbthread.hpp) is not part of the sources here — only its
test suite (src/bindings/cpp/tests/testcpp_contextual_update.cpp) is — so the
core is modelled from the specification and checked against the literal test
scenarios.

Part 2 embeds the INI format plugin's writer and error path
(src/plugins/ini/ini.c) and Part 3 the fcrypt plugin's temporary-file
handling (src/plugins/fcrypt/fcrypt.c), both translated from the source.
-/

namespace ContextualCore

/-- Modelled from the spec: a segment of a templated key name — a literal
identifier, a named placeholder `%tag%`, or the anonymous wildcard `%`
(kdbcontext.hpp is not in the sources). -/
inductive Segment where
  | lit (s : String)
  | placeholder (tag : Option String)
deriving DecidableEq

/-- Modelled from the spec: a Key as the contextual core sees it — a resolved
literal name together with a string payload. -/
structure KsEntry where
  name : String
  value : String
deriving DecidableEq

/-- Modelled from the spec: a Keyset, a name-unique collection of keys. -/
abbrev KeySet := List KsEntry

/-- Exact lookup by name: the value of the entry with the given name. -/
def ksLookup (ks : KeySet) (n : String) : Option String :=
  match ks with
  | [] => none
  | e :: rest => if e.name == n then some e.value else ksLookup rest n

/-- Insertion: replaces any existing entry of the same name, else adds. -/
def ksInsert (ks : KeySet) (n v : String) : KeySet :=
  match ks with
  | [] => [⟨n, v⟩]
  | e :: rest => if e.name == n then ⟨n, v⟩ :: rest else e :: ksInsert rest n v

/-- Modelled from the spec: a layer binding (tag, provider).  The provider is
the index of a registered contextual value; `current` is the provider's string
as last read (snapshotted at activation, re-read by `syncLayers`). -/
structure Layer where
  tag : String
  provider : Nat
  current : String
deriving DecidableEq

/-- The substitution string an active layer provides for a tag, if any. -/
def layersLookup (layers : List Layer) (t : String) : Option String :=
  match layers with
  | [] => none
  | l :: rest => if l.tag == t then some l.current else layersLookup rest t

/-- Inserts/replaces the binding for a tag (at most one provider per tag). -/
def layersUpdate (layers : List Layer) (l : Layer) : List Layer :=
  match layers with
  | [] => [l]
  | x :: rest => if x.tag == l.tag then l :: rest else x :: layersUpdate rest l

/-- Modelled from the spec (§4.2): a literal passes through; a named
placeholder with an active provider is replaced by the provider's string; an
unresolved or anonymous placeholder yields the literal wildcard `%`. -/
def resolveSegment (layers : List Layer) : Segment → String
  | .lit s => s
  | .placeholder none => "%"
  | .placeholder (some t) => (layersLookup layers t).getD "%"

/-- Modelled from the spec (§4.2): pure, total name resolution of a templated
name against the active layer mapping. -/
def resolveName (layers : List Layer) (tmpl : List Segment) : String :=
  String.join (tmpl.map (fun seg => "/" ++ resolveSegment layers seg))

/-- Modelled from the spec: a contextual value — template (with its `default`
metadata), resolved-name cache, typed payload cache (kept as its string
form), and the dirty flag. -/
structure CtxValue where
  template : List Segment
  defaultMeta : Option String
  resolvedName : String
  cachedContent : String
  dirty : Bool
deriving DecidableEq

/-- Modelled from the spec: the shared coordinator state — the keyset the
values were bound against, the active layer bindings, and the registry of
contextual values (an arena with stable indices). -/
structure CoordState where
  ks : KeySet
  layers : List Layer
  values : List CtxValue
deriving DecidableEq

/-- Modelled from the spec (§4.5): a full resolve of one contextual value —
recompute the name, then adopt the existing keyset entry, or materialize the
declared default when the name is absent; fails (ConfigurationError) when the
name is absent and no default is declared.  Clears the dirty flag. -/
def refreshValue (layers : List Layer) (ks : KeySet) (v : CtxValue) :
    Option (KeySet × CtxValue) :=
  match ksLookup ks (resolveName layers v.template) with
  | some s =>
    some (ks,
      { v with
        resolvedName := resolveName layers v.template
        cachedContent := s
        dirty := false })
  | none =>
    match v.defaultMeta with
    | some d =>
      some (ksInsert ks (resolveName layers v.template) d,
        { v with
          resolvedName := resolveName layers v.template
          cachedContent := d
          dirty := false })
    | none => none

/-- Modelled from the spec: forced full resolve of every registered value in
registration order, threading the keyset (materializations are visible to
later values). -/
def refreshAll (layers : List Layer) : KeySet → List CtxValue → Option (KeySet × List CtxValue)
  | ks, [] => some (ks, [])
  | ks, v :: vs =>
    match refreshValue layers ks v with
    | none => none
    | some (ks1, v1) =>
      match refreshAll layers ks1 vs with
      | none => none
      | some (ks2, vs1) => some (ks2, v1 :: vs1)

/-- The result of a full resolve of `v` at name `n` with content `s`: caches
updated, dirty flag cleared. -/
def refreshedWith (v : CtxValue) (n s : String) : CtxValue :=
  { v with
    resolvedName := n
    cachedContent := s
    dirty := false }

/-- Splits a character list at every occurrence of the separator (the list
counterpart of splitting a name on `/` or a comment on newlines). -/
def splitOnChar (c : Char) : List Char → List (List Char)
  | [] => [[]]
  | x :: xs =>
    match splitOnChar c xs with
    | [] => [[]]
    | r :: rs => if x = c then [] :: r :: rs else (x :: r) :: rs

/-- The final segment of an (already resolved) key name; the tag a contextual
value exposes when activated as a layer provider. -/
def lastBaseName (n : String) : String :=
  String.mk ((splitOnChar '/' n.toList).getLastD [])

/-- Modelled from the spec: `activate` first marks every registered value
dirty. -/
def markAllDirty (vs : List CtxValue) : List CtxValue :=
  vs.map (fun v => { v with dirty := true })

/-- Modelled from the spec (§4.3): `activate(p)` inserts/replaces the binding
for `p`'s tag (final segment of its resolved name, providing its cached value
at this moment), marks every registered value dirty, then performs a forced
full resolve of every registered value. -/
def activate (st : CoordState) (p : Nat) : Option CoordState :=
  match st.values[p]? with
  | none => none
  | some pv =>
    let layers' := layersUpdate st.layers ⟨lastBaseName pv.resolvedName, p, pv.cachedContent⟩
    match refreshAll layers' st.ks (markAllDirty st.values) with
    | none => none
    | some (ks', vs') => some ⟨ks', layers', vs'⟩

/-- Modelled from the spec (§4.3): `syncLayers()` re-reads each active
provider's current string and recomputes `resolvedName` of every registered
value, leaving `cachedContent` untouched. -/
def syncLayers (st : CoordState) : CoordState :=
  let layers' := st.layers.map (fun l =>
    match st.values[l.provider]? with
    | some v => { l with current := v.cachedContent }
    | none => l)
  ⟨st.ks, layers',
    st.values.map (fun v => { v with resolvedName := resolveName layers' v.template })⟩

/-- Modelled from the spec (§4.3): the dirty-gated broadcast — refresh only
the values whose dirty flag is set, keep the others untouched. -/
def notifyList (layers : List Layer) : KeySet → List CtxValue → Option (KeySet × List CtxValue)
  | ks, [] => some (ks, [])
  | ks, v :: vs =>
    if v.dirty then
      match refreshValue layers ks v with
      | none => none
      | some (ks1, v1) =>
        match notifyList layers ks1 vs with
        | none => none
        | some (ks2, vs1) => some (ks2, v1 :: vs1)
    else
      match notifyList layers ks vs with
      | none => none
      | some (ks2, vs1) => some (ks2, v :: vs1)

/-- Modelled from the spec (§4.3): `notifyAllEvents()`, the opportunistic
dirty-gated refresh. -/
def notifyAllEvents (st : CoordState) : Option CoordState :=
  match notifyList st.layers st.ks st.values with
  | none => none
  | some (ks', vs') => some ⟨ks', st.layers, vs'⟩

/-- Modelled from the spec (§4.3): `notifyKeySetUpdate()`, the unconditional
full resolve of every registered value. -/
def notifyKeySetUpdate (st : CoordState) : Option CoordState :=
  match refreshAll st.layers st.ks st.values with
  | none => none
  | some (ks', vs') => some ⟨ks', st.layers, vs'⟩

/-- Modelled from the spec (§4.5): `syncCache()`, the unconditional
single-value full resolve. -/
def syncCache (st : CoordState) (i : Nat) : Option CoordState :=
  match st.values[i]? with
  | none => none
  | some v =>
    match refreshValue st.layers st.ks v with
    | none => none
    | some (ks', v') => some ⟨ks', st.layers, st.values.set i v'⟩

/-- Modelled from the spec (§4.5): the tracked write path — write the new
string to the keyset at `resolvedName`, update the cache, set dirty. -/
def assign (st : CoordState) (i : Nat) (s : String) : Option CoordState :=
  match st.values[i]? with
  | none => none
  | some v =>
    some ⟨ksInsert st.ks v.resolvedName s, st.layers,
      st.values.set i { v with cachedContent := s, dirty := true }⟩

/-- Modelled from the spec (§4.5): construction of a contextual value —
register it and perform the implicit first resolve (adopt-or-materialize). -/
def bindValue (st : CoordState) (tmpl : List Segment) (dflt : Option String) :
    Option CoordState :=
  match refreshValue st.layers st.ks ⟨tmpl, dflt, "", "", false⟩ with
  | none => none
  | some (ks', v') => some ⟨ks', st.layers, st.values ++ [v']⟩

end ContextualCore

namespace IniPlugin

/-- A key as the INI plugin manipulates it: escaped name, string value,
metadata map, and whether the key holds a binary (section marker) value
(src/plugins/ini/ini.c). -/
structure IKey where
  name : String
  value : String
  meta : List (String × String)
  binary : Bool
deriving DecidableEq

/-- `keyGetMeta`: the metadata value stored under a metadata name, if any. -/
def keyGetMeta (k : IKey) (m : String) : Option String :=
  (k.meta.find? (fun p => p.1 == m)).map (fun p => p.2)

/-- `keySetMeta` on the metadata list: replace-or-add one metadata entry. -/
def metaSet (meta : List (String × String)) (m v : String) : List (String × String) :=
  match meta with
  | [] => [(m, v)]
  | p :: rest => if p.1 == m then (m, v) :: rest else p :: metaSet rest m v

/-- `isSectionKey` (ini.c): a key is a section key iff it is binary. -/
def isSectionKey (k : IKey) : Bool := k.binary

/-- `isIniKey` (ini.c): a key is an ini key iff it carries `ini/key` metadata. -/
def isIniKey (k : IKey) : Bool := (keyGetMeta k "ini/key").isSome

/-- `keyBaseName`: the final segment of a key name. -/
def keyBaseName (n : String) : String :=
  String.mk ((ContextualCore.splitOnChar '/' n.toList).getLastD [])

/-- Whether the first character list leads the second (shared helper for the
below-in-hierarchy test). -/
def leadsWith : List Char → List Char → Bool
  | [], _ => true
  | _ :: _, [] => false
  | x :: xs, y :: ys => x == y && leadsWith xs ys

/-- `keyIsBelow a b`: `b` lies strictly below `a` in the hierarchy. -/
def keyIsBelow (a b : IKey) : Bool :=
  leadsWith (a.name ++ "/").toList b.name.toList

/-- `getIniName` (ini.c): the ini-file name of `key` relative to `section` —
the base name when the two coincide, otherwise the name with the section part
and the separating slash removed, dropping backslash escapes. -/
def getIniName (sec : IKey) (key : IKey) : String :=
  if sec.name == key.name then keyBaseName key.name
  else String.mk ((key.name.toList.drop (sec.name.toList.length + 1)).filter
    (fun c => c ≠ '\\'))

/-- `keyString (keyGetMeta k "order")` as used by `iniCmpOrder`; elektra's
`keyString` renders a missing key as "(null)". -/
def orderString (k : IKey) : String :=
  (keyGetMeta k "order").getD "(null)"

/-- Byte-wise string comparison as `strcmp` orders it, as a boolean `≤`. -/
def charListLe : List Char → List Char → Bool
  | [], _ => true
  | _ :: _, [] => false
  | x :: xs, y :: ys =>
    if x.toNat = y.toNat then charListLe xs ys else Nat.blt x.toNat y.toNat

/-- One insertion step of sorting by the `order` metadata string. -/
def insertByOrder (k : IKey) : List IKey → List IKey
  | [] => [k]
  | x :: xs =>
    if charListLe (orderString k).toList (orderString x).toList then k :: x :: xs
    else x :: insertByOrder k xs

/-- The `qsort` on `iniCmpOrder` (strcmp of `order` metadata) in
`iniWriteKeySet`, modelled as an insertion sort on the same string order. -/
def sortByOrder : List IKey → List IKey
  | [] => []
  | x :: xs => insertByOrder x (sortByOrder xs)

/-- Accumulates a decimal digit list into a number (`atoi` core). -/
def digitsToNat : List Char → Nat → Nat
  | [], acc => acc
  | c :: cs, acc => digitsToNat cs (acc * 10 + (c.toNat - 48))

/-- `atoi` on the tail of an array index such as `#3`. -/
def atoiNat (s : String) : Nat :=
  digitsToNat (s.toList.takeWhile (fun c => c.isDigit)) 0

/-- The two plugin options `iniWriteKeySet` consults
(`IniPluginConfig.sections` / `.array`). -/
structure IniCfg where
  sections : Bool
  array : Bool
deriving DecidableEq

/-- The main loop of `iniWriteKeySet` (ini.c): iterate over the keys sorted
by `order`, skipping the parent key, tracking the last section key; emit
`\n[name]\n` for section keys and `name = value` lines for ini keys (with the
array block emitting one line per element); keys that are neither are
skipped.  The fuel argument mirrors the loop bound `arraySize`.  Note the
loop never consults `comment` metadata and never calls `writeComments`. -/
def writeLoop (cfg : IniCfg) (parent : IKey) : Nat → IKey → List IKey → String
  | 0, _, _ => ""
  | _, _, [] => ""
  | fuel + 1, sectionKey, cur :: rest =>
    if cur.name == parent.name then writeLoop cfg parent fuel sectionKey rest
    else
      let sKey := if isSectionKey cur then cur else sectionKey
      if !cfg.sections then
        getIniName parent cur ++ " = " ++ cur.value ++ "\n" ++
          writeLoop cfg parent fuel sKey rest
      else if isSectionKey cur then
        "\n[" ++ getIniName parent cur ++ "]\n" ++ writeLoop cfg parent fuel sKey rest
      else if isIniKey cur then
        match keyGetMeta cur "ini/array", cfg.array with
        | some arrMeta, true =>
          let lastIdx := atoiNat (String.mk (arrMeta.toList.drop 1))
          let nm := keyBaseName cur.name
          String.join ((rest.take (lastIdx + 1)).map (fun k => nm ++ " = " ++ k.value ++ "\n"))
            ++ writeLoop cfg parent fuel sKey (rest.drop (lastIdx + 1))
        | _, _ =>
          let nm := if keyIsBelow sKey cur then getIniName sKey cur else getIniName parent cur
          nm ++ " = " ++ cur.value ++ "\n" ++ writeLoop cfg parent fuel sKey rest
      else writeLoop cfg parent fuel sKey rest

/-- `iniWriteKeySet` (ini.c): sort the keyset by `order` and run the write
loop with the parent key as the initial section key. -/
def iniWriteKeySet (cfg : IniCfg) (parent : IKey) (ks : List IKey) : String :=
  let sorted := sortByOrder ks
  writeLoop cfg parent sorted.length parent sorted

/-- `writeComments` (ini.c): the comment lines this helper would print for a
key — one `;`-prefixed line per newline-separated chunk of the `comment`
metadata.  In this snapshot nothing in the set path ever calls it. -/
def writeComments (k : IKey) : String :=
  match keyGetMeta k "comment" with
  | none => ""
  | some c =>
    String.join (((ContextualCore.splitOnChar '\n' c.toList).filter (fun l => l ≠ [])).map
      (fun l => ";" ++ String.mk l ++ "\n"))

/-- `iniCommentToMeta` (ini.c): collect a comment line into the comment
buffer, joining successive lines with a newline. -/
def iniCommentToMeta (collected : Option String) (comment : String) : Option String :=
  match collected with
  | none => some comment
  | some prev => some (prev ++ "\n" ++ comment)

/-- `flushCollectedComment` (ini.c): attach the collected comment buffer to a
key as `comment` metadata. -/
def flushCollectedComment (collected : Option String) (k : IKey) : IKey :=
  match collected with
  | none => k
  | some c => { k with meta := metaSet k.meta "comment" c }

/-- The control-flow skeleton of `elektraIniGet` (ini.c) around the external
inih call: the module-contract branch appends the contract; a failed `fopen`
returns -1; when `ini_parse_file` returns 0 the caller's keyset is cleared
and replaced by the parse result, otherwise -1 is returned with the caller's
keyset untouched.  The parse outcome (return code and result keyset, after
`setParents` and `stripInternalData`) is passed in, since the inih parser is
not part of the sources. -/
def elektraIniGet (contractRequest : Bool) (contract : List IKey) (fileOpened : Bool)
    (parseRet : Int) (parseResult : List IKey) (returned : List IKey) :
    Int × List IKey :=
  if contractRequest then (1, returned ++ contract)
  else if !fileOpened then (-1, returned)
  else if parseRet == 0 then (1, parseResult)
  else (-1, returned)

end IniPlugin

namespace Fcrypt

/-- The externally visible file actions of the fcrypt plugin's phases, in
program order (src/plugins/fcrypt/fcrypt.c). -/
inductive FcAct where
  | openOriginalFd
  | renameTmpOverOriginal
  | shredOriginalViaOldFd
  | shredTmp
  | unlinkTmp
  | closeOriginalFd
  | closeTmp
  | freeTmpPath
  | redirectParent
  | keepTmpForPostget
deriving DecidableEq

/-- `shredTemporaryFile` (fcrypt.c) on the file content: starting from offset
zero it writes 512-byte blocks of zeroes, one per loop step `i = 0, 512, …`
while `i < st_size`, so the content becomes `512 * ⌈size/512⌉` zero bytes. -/
def shredTemporaryFile (content : List Nat) : List Nat :=
  List.replicate (512 * ((content.length + 511) / 512)) 0

/-- `fcryptGpgCallAndCleanup` (fcrypt.c): result code and file actions of the
persist-phase cleanup, given whether the gpg call and the rename succeed.  On
overall success the temporary file is renamed over the original (and the old
original content is shredded through the pre-rename descriptor); on any
failure the temporary file is shredded and unlinked. -/
def fcryptGpgCallAndCleanup (gpgOk renameOk : Bool) : Int × List FcAct :=
  let r1 : Int := if gpgOk then 1 else -1
  let openActs := if r1 == 1 then [FcAct.openOriginalFd] else []
  let renameStep : Int × List FcAct :=
    if r1 == 1 then
      if renameOk then (1, [FcAct.renameTmpOverOriginal])
      else (-1, [FcAct.renameTmpOverOriginal])
    else (r1, [])
  let r2 := renameStep.1
  let cleanupActs :=
    if r2 == 1 then [FcAct.shredOriginalViaOldFd]
    else [FcAct.shredTmp, FcAct.unlinkTmp]
  let closeActs := (if r1 == 1 then [FcAct.closeOriginalFd] else []) ++
    [FcAct.closeTmp, FcAct.freeTmpPath]
  (r2, openActs ++ renameStep.2 ++ cleanupActs ++ closeActs)

/-- `fcryptDecrypt` (fcrypt.c): on gpg success the decrypted temporary file
is kept for the postgetstorage phase and the parent key is redirected to it;
on failure it is shredded, unlinked, closed and freed. -/
def fcryptDecrypt (gpgOk : Bool) : Int × List FcAct :=
  if gpgOk then (1, [FcAct.keepTmpForPostget, FcAct.redirectParent])
  else (-1, [FcAct.shredTmp, FcAct.unlinkTmp, FcAct.closeTmp, FcAct.freeTmpPath])

/-- The postgetstorage branch of fcrypt's `get` (fcrypt.c): redirect the
parent key back to the original file; if a temporary file is held, shred it,
close it, unlink it and free its path. -/
def fcryptGetPostget (hasTmpFd : Bool) : Int × List FcAct :=
  if hasTmpFd then
    (1, [FcAct.redirectParent, FcAct.shredTmp, FcAct.closeTmp, FcAct.unlinkTmp,
      FcAct.freeTmpPath])
  else (1, [FcAct.redirectParent])

/-- Every `unlink` of the temporary file is preceded by a shred of it. -/
def shredBeforeUnlink (seen : Bool) : List FcAct → Bool
  | [] => true
  | FcAct.unlinkTmp :: rest => seen && shredBeforeUnlink seen rest
  | FcAct.shredTmp :: rest => shredBeforeUnlink true rest
  | _ :: rest => shredBeforeUnlink seen rest

end Fcrypt

namespace ContextualCore

/-- The template of the test value `i`: the literal key `/ignore/id` with
default `my` (testcpp_contextual_update.cpp fixture). -/
def iTemplate : List Segment := [Segment.lit "ignore", Segment.lit "id"]

/-- The template of the test value `x`: the templated key `/%id%/key` with
default `33` (testcpp_contextual_update.cpp fixture). -/
def xTemplate : List Segment := [Segment.placeholder (some "id"), Segment.lit "key"]

/-- The value `i` right after construction: materialized at `/ignore/id`. -/
def iBound : CtxValue := ⟨iTemplate, some "my", "/ignore/id", "my", false⟩

/-- The value `x` right after construction with no `id` layer active:
materialized at `/%/key`. -/
def xBound : CtxValue := ⟨xTemplate, some "33", "/%/key", "33", false⟩

/-- The coordinator state of the test fixture after constructing `i` and
`x`: both defaults were materialized into the keyset, no layer is active. -/
def fixture : CoordState :=
  ⟨[⟨"/ignore/id", "my"⟩, ⟨"/%/key", "33"⟩], [], [iBound, xBound]⟩

/-- `x` after `activate(i)`: resolved at `/my/key`, default materialized. -/
def xBoundAct : CtxValue := ⟨xTemplate, some "33", "/my/key", "33", false⟩

/-- The fixture state after `c.activate(i)` (test `activate`): the `id` layer
is bound to `i`'s cached string `my` and `x` now lives at `/my/key`. -/
def fixtureAct : CoordState :=
  ⟨[⟨"/ignore/id", "my"⟩, ⟨"/%/key", "33"⟩, ⟨"/my/key", "33"⟩], [⟨"id", 0, "my"⟩],
   [iBound, xBoundAct]⟩

/-- The fixture state after the keyset entry `/%/key` was changed to `133`
externally, with both values still clean (test `notifyAllEvents`). -/
def fixtureExt : CoordState :=
  ⟨ksInsert fixture.ks "/%/key" "133", [], [iBound, xBound]⟩

/-- The state after `activate(i)` followed by the tracked write `i = "other"`
(test `changeKey` essentials): `i`'s cache is `other` and dirty, while the
`id` layer still carries its activation snapshot `my`. -/
def fixtureChanged : CoordState :=
  ⟨[⟨"/ignore/id", "other"⟩, ⟨"/%/key", "33"⟩, ⟨"/my/key", "33"⟩], [⟨"id", 0, "my"⟩],
   [⟨iTemplate, some "my", "/ignore/id", "other", true⟩, xBoundAct]⟩

/-- The fixture state after the keyset entry `/%/key` was changed to `144`
externally (test `notifyKeySetUpdate`). -/
def fixtureK144 : CoordState :=
  ⟨ksInsert fixture.ks "/%/key" "144", [], [iBound, xBound]⟩

/-- The expected result of `notifyKeySetUpdate` on `fixtureK144`: `x`
re-adopted the external value `144`. -/
def fixtureK144After : CoordState :=
  ⟨ksInsert fixture.ks "/%/key" "144", [],
   [iBound, ⟨xTemplate, some "33", "/%/key", "144", false⟩]⟩

/-- A registry holding only `x`, over an empty keyset (materialization
scenario of spec §8, scenario 1). -/
def bindState : CoordState := ⟨[], [], [xBound]⟩

/-- A registry holding only `x`, with an external entry `/%/key → 111`
already present (test `syncCache`). -/
def adoptState : CoordState := ⟨[⟨"/%/key", "111"⟩], [], [xBound]⟩

end ContextualCore

namespace IniPlugin

/-- The mountpoint key the INI test scenarios write below. -/
def iniParent : IKey := ⟨"user/tests/ini", "", [], false⟩

/-- The key the INI parser produces for the payload `";c\nk = v\n"`: the
comment line is collected by `iniCommentToMeta` and flushed onto the
following key as `comment` metadata. -/
def iniKeyK : IKey :=
  flushCollectedComment (iniCommentToMeta none "c")
    ⟨"user/tests/ini/k", "v", [("ini/key", ""), ("order", "000000001")], false⟩

/-- The plugin configuration with `/sections` and `/array` enabled. -/
def iniCfg : IniCfg := ⟨true, true⟩

end IniPlugin

namespace ContextualCore

theorem ksLookup_ksInsert_self (ks : KeySet) (n v : String) :
    ksLookup (ksInsert ks n v) n = some v := by
  induction ks with
  | nil => simp [ksInsert, ksLookup]
  | cons e rest ih =>
    by_cases h : e.name = n
    · simp [ksInsert, ksLookup, h]
    · simp [ksInsert, ksLookup, h, ih]

theorem ksLookup_ksInsert_ne (ks : KeySet) (n v m : String) (h : m ≠ n) :
    ksLookup (ksInsert ks n v) m = ksLookup ks m := by
  induction ks with
  | nil => simp [ksInsert, ksLookup, Ne.symm h]
  | cons e rest ih =>
    by_cases h2 : e.name = n
    · subst h2
      simp [ksInsert, ksLookup, Ne.symm h]
    · by_cases h3 : e.name = m <;> simp [ksInsert, ksLookup, h2, h3, ih, h]

theorem refreshValue_spec (layers : List Layer) (ks : KeySet) (v : CtxValue)
    (ks1 : KeySet) (v1 : CtxValue) (h : refreshValue layers ks v = some (ks1, v1)) :
    v1.resolvedName = resolveName layers v.template ∧
    v1.template = v.template ∧
    v1.dirty = false ∧
    ksLookup ks1 v1.resolvedName = some v1.cachedContent ∧
    ∀ n s, ksLookup ks n = some s → ksLookup ks1 n = some s := by
  unfold refreshValue at h
  cases hl : ksLookup ks (resolveName layers v.template) with
  | some s =>
    simp only [hl, Option.some.injEq, Prod.mk.injEq] at h
    obtain ⟨rfl, rfl⟩ := h
    exact ⟨rfl, rfl, rfl, hl, fun n s hs => hs⟩
  | none =>
    cases hd : v.defaultMeta with
    | none => simp [hl, hd] at h
    | some d =>
      simp only [hl, hd, Option.some.injEq, Prod.mk.injEq] at h
      obtain ⟨rfl, rfl⟩ := h
      refine ⟨rfl, rfl, rfl, ksLookup_ksInsert_self _ _ _, ?_⟩
      intro n s hs
      by_cases hne : n = resolveName layers v.template
      · rw [hne, hl] at hs
        exact Option.noConfusion hs
      · rw [ksLookup_ksInsert_ne _ _ _ _ hne]
        exact hs

theorem refreshAll_spec (layers : List Layer) :
    ∀ (vs : List CtxValue) (ks ks2 : KeySet) (vs2 : List CtxValue),
      refreshAll layers ks vs = some (ks2, vs2) →
      (∀ n s, ksLookup ks n = some s → ksLookup ks2 n = some s) ∧
      ∀ (i : Nat) (v : CtxValue), vs[i]? = some v → ∃ w : CtxValue, vs2[i]? = some w ∧
        w.resolvedName = resolveName layers v.template ∧
        w.dirty = false ∧
        ksLookup ks2 w.resolvedName = some w.cachedContent := by
  intro vs
  induction vs with
  | nil =>
    intro ks ks2 vs2 h
    simp only [refreshAll, Option.some.injEq, Prod.mk.injEq] at h
    obtain ⟨rfl, rfl⟩ := h
    exact ⟨fun n s hs => hs, by simp⟩
  | cons v vs ih =>
    intro ks ks2 vs2 h
    unfold refreshAll at h
    cases hr : refreshValue layers ks v with
    | none => simp [hr] at h
    | some r =>
      obtain ⟨ks1, v1⟩ := r
      cases ha : refreshAll layers ks1 vs with
      | none => simp [hr, ha] at h
      | some r2 =>
        obtain ⟨ks2t, vs1⟩ := r2
        simp only [hr, ha, Option.some.injEq, Prod.mk.injEq] at h
        obtain ⟨rfl, rfl⟩ := h
        obtain ⟨hn, ht, hd, hk, hpres⟩ := refreshValue_spec _ _ _ _ _ hr
        obtain ⟨hpres2, hidx⟩ := ih ks1 ks2t vs1 ha
        refine ⟨fun n s hs => hpres2 _ _ (hpres _ _ hs), ?_⟩
        intro i w hi
        cases i with
        | zero =>
          simp only [List.getElem?_cons_zero, Option.some.injEq] at hi
          subst hi
          exact ⟨v1, by simp, hn, hd, hpres2 _ _ hk⟩
        | succ j =>
          simp only [List.getElem?_cons_succ] at hi
          obtain ⟨u, hu, h1, h2, h3⟩ := hidx j w hi
          exact ⟨u, by simpa using hu, h1, h2, h3⟩

theorem markAllDirty_getElem (vs : List CtxValue) (i : Nat) :
    (markAllDirty vs)[i]? = (vs[i]?).map (fun v => { v with dirty := true }) := by
  simp [markAllDirty]

/-- C1: `activate(p)` replaces the layer binding for `p`'s tag (its resolved
base name, providing its cached string), and then — whatever each value's
dirty flag was before — recomputes every registered value's `resolvedName`
under the updated mapping and refreshes its `cachedContent` from the keyset
by the adopt-or-materialize rule, so afterwards the keyset holds every
value's content at its new resolved name and all dirty flags are clear. -/
theorem activate_forces_full_resolve (st : CoordState) (p : Nat) (st' : CoordState)
    (pv : CtxValue) (hp : st.values[p]? = some pv) (h : activate st p = some st') :
    st'.layers = layersUpdate st.layers ⟨lastBaseName pv.resolvedName, p, pv.cachedContent⟩ ∧
    ∀ (i : Nat) (v : CtxValue), st.values[i]? = some v → ∃ w : CtxValue, st'.values[i]? = some w ∧
      w.resolvedName = resolveName st'.layers v.template ∧
      ksLookup st'.ks w.resolvedName = some w.cachedContent ∧
      w.dirty = false := by
  unfold activate at h
  cases ha : refreshAll (layersUpdate st.layers ⟨lastBaseName pv.resolvedName, p, pv.cachedContent⟩)
      st.ks (markAllDirty st.values) with
  | none => simp [hp, ha] at h
  | some r =>
    obtain ⟨ks', vs'⟩ := r
    simp only [hp, ha, Option.some.injEq] at h
    subst h
    obtain ⟨hpres, hidx⟩ := refreshAll_spec _ _ _ _ _ ha
    refine ⟨rfl, ?_⟩
    intro i v hv
    obtain ⟨w, hw, h1, h2, h3⟩ := hidx i { v with dirty := true }
      (by rw [markAllDirty_getElem, hv]; rfl)
    exact ⟨w, hw, h1, h3, h2⟩

/-- C4: `notifyKeySetUpdate()` leaves the layer mapping alone but forces a
full resolve (name and content) of every registered contextual value from
the current keyset state, unconditionally — in particular also for values
whose dirty flag is clear, since no dirty hypothesis is needed. -/
theorem notifyKeySetUpdate_unconditional (st st' : CoordState)
    (h : notifyKeySetUpdate st = some st') :
    st'.layers = st.layers ∧
    ∀ (i : Nat) (v : CtxValue), st.values[i]? = some v → ∃ w : CtxValue, st'.values[i]? = some w ∧
      w.resolvedName = resolveName st.layers v.template ∧
      ksLookup st'.ks w.resolvedName = some w.cachedContent ∧
      w.dirty = false := by
  unfold notifyKeySetUpdate at h
  cases ha : refreshAll st.layers st.ks st.values with
  | none => simp [ha] at h
  | some r =>
    obtain ⟨ks', vs'⟩ := r
    simp only [ha, Option.some.injEq] at h
    subst h
    obtain ⟨hpres, hidx⟩ := refreshAll_spec _ _ _ _ _ ha
    refine ⟨rfl, ?_⟩
    intro i v hv
    obtain ⟨w, hw, h1, h2, h3⟩ := hidx i v hv
    exact ⟨w, hw, h1, h3, h2⟩

theorem notifyList_clean (layers : List Layer) :
    ∀ (vs : List CtxValue) (ks ks2 : KeySet) (vs2 : List CtxValue),
      notifyList layers ks vs = some (ks2, vs2) →
      ∀ (i : Nat) (v : CtxValue), vs[i]? = some v → v.dirty = false → vs2[i]? = some v := by
  intro vs
  induction vs with
  | nil => intro ks ks2 vs2 h i v hi; simp at hi
  | cons u vs ih =>
    intro ks ks2 vs2 h i v hi hc
    unfold notifyList at h
    by_cases hu : u.dirty = true
    · rw [if_pos hu] at h
      cases hr : refreshValue layers ks u with
      | none => simp [hr] at h
      | some r =>
        obtain ⟨ks1, u1⟩ := r
        cases ha : notifyList layers ks1 vs with
        | none => simp [hr, ha] at h
        | some r2 =>
          obtain ⟨ks2t, vs1⟩ := r2
          simp only [hr, ha, Option.some.injEq, Prod.mk.injEq] at h
          obtain ⟨rfl, rfl⟩ := h
          cases i with
          | zero =>
            simp only [List.getElem?_cons_zero, Option.some.injEq] at hi
            subst hi
            rw [hu] at hc
            exact Bool.noConfusion hc
          | succ j =>
            simp only [List.getElem?_cons_succ] at hi ⊢
            exact ih ks1 ks2t vs1 ha j v hi hc
    · rw [if_neg hu] at h
      cases ha : notifyList layers ks vs with
      | none => simp [ha] at h
      | some r2 =>
        obtain ⟨ks2t, vs1⟩ := r2
        simp only [ha, Option.some.injEq, Prod.mk.injEq] at h
        obtain ⟨rfl, rfl⟩ := h
        cases i with
        | zero => simpa using hi
        | succ j =>
          simp only [List.getElem?_cons_succ] at hi ⊢
          exact ih ks ks2t vs1 ha j v hi hc

/-- C2: `notifyAllEvents()` is dirty-gated — a registered contextual value
whose dirty flag is clear (untouched by the tracked write/activate path) is
returned exactly as it was, with `resolvedName` and `cachedContent`
unchanged, whatever state the keyset is in (so in particular even when the
entry at its resolved name was changed externally before the call). -/
theorem notifyAllEvents_dirty_gated (st st' : CoordState)
    (h : notifyAllEvents st = some st') (i : Nat) (v : CtxValue)
    (hv : st.values[i]? = some v) (hc : v.dirty = false) :
    st'.values[i]? = some v ∧ st'.layers = st.layers := by
  unfold notifyAllEvents at h
  cases ha : notifyList st.layers st.ks st.values with
  | none => simp [ha] at h
  | some r =>
    obtain ⟨ks', vs'⟩ := r
    simp only [ha, Option.some.injEq] at h
    subst h
    exact ⟨notifyList_clean _ _ _ _ _ ha i v hv hc, rfl⟩

end ContextualCore

namespace ContextualCore

/-- C3: `syncLayers()` leaves the keyset untouched and maps every registered
contextual value to the same value with only its `resolvedName` recomputed
from the re-read provider strings — `cachedContent` (and everything else)
equals what it was immediately before the call. -/
theorem syncLayers_preserves_cache (st : CoordState) (i : Nat) (v : CtxValue)
    (hv : st.values[i]? = some v) :
    (syncLayers st).ks = st.ks ∧
    (syncLayers st).values[i]? =
      some { v with resolvedName := resolveName (syncLayers st).layers v.template } := by
  refine ⟨rfl, ?_⟩
  simp [syncLayers, hv]

/-- C5: materialization — binding a contextual value to a template whose
resolved name is absent from the keyset, with declared default `D`, inserts a
new keyset entry holding `D` at the resolved name and caches `D`; the same
adopt-or-materialize rule fires at a forced single-value resolve
(`syncCache`). -/
theorem bind_materializes_default (st : CoordState) (tmpl : List Segment) (D : String)
    (i : Nat) (v : CtxValue) :
    (ksLookup st.ks (resolveName st.layers tmpl) = none →
      bindValue st tmpl (some D) =
        some ⟨ksInsert st.ks (resolveName st.layers tmpl) D, st.layers,
          st.values ++ [⟨tmpl, some D, resolveName st.layers tmpl, D, false⟩]⟩ ∧
      ksLookup (ksInsert st.ks (resolveName st.layers tmpl) D)
        (resolveName st.layers tmpl) = some D) ∧
    (st.values[i]? = some v → v.defaultMeta = some D →
      ksLookup st.ks (resolveName st.layers v.template) = none →
      syncCache st i =
        some ⟨ksInsert st.ks (resolveName st.layers v.template) D, st.layers,
          st.values.set i (refreshedWith v (resolveName st.layers v.template) D)⟩ ∧
      ksLookup (ksInsert st.ks (resolveName st.layers v.template) D)
        (resolveName st.layers v.template) = some D) := by
  constructor
  · intro hn
    refine ⟨?_, ksLookup_ksInsert_self _ _ _⟩
    simp [bindValue, refreshValue, hn]
  · intro hv hd hn
    refine ⟨?_, ksLookup_ksInsert_self _ _ _⟩
    simp [syncCache, hv, refreshValue, hn, hd, refreshedWith]

/-- C6: adopt-over-default — when the resolved name is present in the keyset
at bind time or at a forced resolve (`syncCache`), the existing entry's value
is adopted as the cached content, the keyset is left unchanged, and the
declared default (an arbitrary `dflt` here) is ignored. -/
theorem bind_adopts_existing (st : CoordState) (tmpl : List Segment) (dflt : Option String)
    (s : String) (i : Nat) (v : CtxValue) :
    (ksLookup st.ks (resolveName st.layers tmpl) = some s →
      bindValue st tmpl dflt =
        some ⟨st.ks, st.layers,
          st.values ++ [⟨tmpl, dflt, resolveName st.layers tmpl, s, false⟩]⟩) ∧
    (st.values[i]? = some v → ksLookup st.ks (resolveName st.layers v.template) = some s →
      syncCache st i =
        some ⟨st.ks, st.layers,
          st.values.set i (refreshedWith v (resolveName st.layers v.template) s)⟩) := by
  constructor
  · intro hn
    simp [bindValue, refreshValue, hn]
  · intro hv hn
    simp [syncCache, hv, refreshValue, hn, refreshedWith]

/-- C7: resolution is total — for every layer mapping (including the empty
one) and every templated name it yields exactly one concrete name; a named
placeholder whose tag has no active provider, and every anonymous
placeholder, resolves to the literal wildcard segment `%`. -/
theorem resolution_total (layers : List Layer) (tmpl : List Segment) :
    (∃! n : String, resolveName layers tmpl = n) ∧
    resolveSegment layers (Segment.placeholder none) = "%" ∧
    ∀ t : String, layersLookup layers t = none →
      resolveSegment layers (Segment.placeholder (some t)) = "%" := by
  refine ⟨⟨resolveName layers tmpl, rfl, fun y hy => hy.symm⟩, rfl, ?_⟩
  intro t ht
  simp [resolveSegment, ht]

/-- Witness for C1 at the fixture of the `activate` test: activating `i`
binds layer `id → my` and forces `x` (clean beforehand) to `/my/key` with its
default `33` materialized. -/
theorem activate_forces_full_resolve_witness :
    fixtureAct.layers =
      layersUpdate fixture.layers ⟨lastBaseName iBound.resolvedName, 0, iBound.cachedContent⟩ ∧
    (∃ w : CtxValue, fixtureAct.values[1]? = some w ∧
      w.resolvedName = resolveName fixtureAct.layers xBound.template ∧
      ksLookup fixtureAct.ks w.resolvedName = some w.cachedContent ∧
      w.dirty = false) := by
  have h := activate_forces_full_resolve fixture 0 fixtureAct iBound rfl rfl
  exact ⟨h.1, h.2 1 xBound rfl⟩

/-- Witness for C2 at the `notifyAllEvents` test scenario: `/%/key` was
changed to `133` externally, `x` is clean, and `notifyAllEvents` leaves `x`
exactly as it was (cache still `33`). -/
theorem notifyAllEvents_dirty_gated_witness :
    fixtureExt.values[1]? = some xBound ∧ fixtureExt.layers = fixtureExt.layers :=
  notifyAllEvents_dirty_gated fixtureExt fixtureExt rfl 1 xBound rfl rfl

/-- Witness for C3 at the `changeKey` test scenario: after the tracked write
`i = "other"`, `syncLayers` re-reads the provider and recomputes `x`'s name
while its cached content stays what it was. -/
theorem syncLayers_preserves_cache_witness :
    (syncLayers fixtureChanged).ks = fixtureChanged.ks ∧
    (syncLayers fixtureChanged).values[1]? =
      some { xBoundAct with
        resolvedName := resolveName (syncLayers fixtureChanged).layers xBoundAct.template } :=
  syncLayers_preserves_cache fixtureChanged 1 xBoundAct rfl

/-- Witness for C4 at the `notifyKeySetUpdate` test scenario: `/%/key` was
changed to `144` externally, `x` is clean, and the forced notify re-adopts
`144`. -/
theorem notifyKeySetUpdate_unconditional_witness :
    fixtureK144After.layers = fixtureK144.layers ∧
    (∃ w : CtxValue, fixtureK144After.values[1]? = some w ∧
      w.resolvedName = resolveName fixtureK144.layers xBound.template ∧
      ksLookup fixtureK144After.ks w.resolvedName = some w.cachedContent ∧
      w.dirty = false) := by
  have h := notifyKeySetUpdate_unconditional fixtureK144 fixtureK144After rfl
  exact ⟨h.1, h.2 1 xBound rfl⟩

/-- Witness for C5 at spec §8 scenario 1: binding `x` at `/%id%/key` with
default `33` over an empty keyset materializes `/%/key → 33`; `syncCache` on
a value whose resolved name is absent does the same. -/
theorem bind_materializes_default_witness :
    (bindValue bindState xTemplate (some "33") =
        some ⟨ksInsert bindState.ks (resolveName bindState.layers xTemplate) "33",
          bindState.layers,
          bindState.values ++
            [⟨xTemplate, some "33", resolveName bindState.layers xTemplate, "33", false⟩]⟩ ∧
      ksLookup (ksInsert bindState.ks (resolveName bindState.layers xTemplate) "33")
        (resolveName bindState.layers xTemplate) = some "33") ∧
    (syncCache bindState 0 =
        some ⟨ksInsert bindState.ks (resolveName bindState.layers xBound.template) "33",
          bindState.layers,
          bindState.values.set 0
            (refreshedWith xBound (resolveName bindState.layers xBound.template) "33")⟩ ∧
      ksLookup (ksInsert bindState.ks (resolveName bindState.layers xBound.template) "33")
        (resolveName bindState.layers xBound.template) = some "33") := by
  have h := bind_materializes_default bindState xTemplate "33" 0 xBound
  exact ⟨h.1 rfl, h.2 rfl rfl rfl⟩

/-- Witness for C6 at the `syncCache` test scenario: with `/%/key → 111`
already present, binding `x` (default `33`) adopts `111` and the keyset is
unchanged; likewise `syncCache` on the registered `x`. -/
theorem bind_adopts_existing_witness :
    (bindValue adoptState xTemplate (some "33") =
        some ⟨adoptState.ks, adoptState.layers,
          adoptState.values ++
            [⟨xTemplate, some "33", resolveName adoptState.layers xTemplate, "111", false⟩]⟩) ∧
    (syncCache adoptState 0 =
        some ⟨adoptState.ks, adoptState.layers,
          adoptState.values.set 0
            (refreshedWith xBound (resolveName adoptState.layers xBound.template) "111")⟩) := by
  have h := bind_adopts_existing adoptState xTemplate (some "33") "111" 0 xBound
  exact ⟨h.1 rfl, h.2 rfl rfl⟩

/-- Witness for C7: with no layers active, a named placeholder resolves to
the wildcard `%`. -/
theorem resolution_total_witness :
    resolveSegment ([] : List Layer) (Segment.placeholder (some "id")) = "%" :=
  (resolution_total [] []).2.2 "id" rfl

end ContextualCore

namespace IniPlugin

/-- C8: evaluation of the INI plugin at the payload `";c\nk = v\n"`.  The
parser side does store the comment as `comment` metadata on the following key
(first conjunct), and the dead helper `writeComments` would emit it back
(second conjunct) — but `iniWriteKeySet`, which is what `elektraIniSet`
actually calls, emits only the `k = v` line, so the written payload is not
the parsed one: the round trip drops the comment. -/
theorem ini_writer_drops_comments :
    keyGetMeta iniKeyK "comment" = some "c" ∧
    writeComments iniKeyK = ";c\n" ∧
    iniWriteKeySet iniCfg iniParent [iniParent, iniKeyK] = "k = v\n" ∧
    iniWriteKeySet iniCfg iniParent [iniParent, iniKeyK] ≠ ";c\nk = v\n" := by
  refine ⟨rfl, rfl, rfl, ?_⟩
  decide

/-- C10: `elektraIniGet` returns -1 and leaves the caller's keyset exactly as
it was whenever the inih parse reports a nonzero result (and likewise when
the file cannot be opened); only a parse result of 0 clears and replaces the
keyset with the parsed keys, returning 1. -/
theorem elektraIniGet_error_preserves_returned (contract parsed returned : List IKey)
    (parseRet : Int) (h : parseRet ≠ 0) :
    elektraIniGet false contract true parseRet parsed returned = (-1, returned) ∧
    elektraIniGet false contract true 0 parsed returned = (1, parsed) ∧
    elektraIniGet false contract false parseRet parsed returned = (-1, returned) := by
  refine ⟨?_, rfl, rfl⟩
  simp [elektraIniGet, h]

/-- Witness for C10 at the concrete parse result 2 (first error in line 2). -/
theorem elektraIniGet_error_preserves_returned_witness :
    elektraIniGet false [] true 2 [iniKeyK] [iniParent] = (-1, [iniParent]) ∧
    elektraIniGet false [] true 0 [iniKeyK] [iniParent] = (1, [iniKeyK]) ∧
    elektraIniGet false [] false 2 [iniKeyK] [iniParent] = (-1, [iniParent]) :=
  elektraIniGet_error_preserves_returned [] [iniKeyK] [iniParent] 2 (by decide)

end IniPlugin

namespace Fcrypt

/-- C9: on every control path of the fcrypt phases — encrypt cleanup for all
gpg/rename outcomes, decrypt for both gpg outcomes, and the postgetstorage
branch of `get` — any `unlink` of the temporary file is preceded by a shred
of it; and `shredTemporaryFile` overwrites the file with zeroes over its full
original length. -/
theorem fcrypt_shred_before_discard (content : List Nat) (i : Nat)
    (hi : i < content.length) :
    (∀ g r : Bool, shredBeforeUnlink false (fcryptGpgCallAndCleanup g r).2 = true) ∧
    (∀ g : Bool, shredBeforeUnlink false (fcryptDecrypt g).2 = true) ∧
    (∀ b : Bool, shredBeforeUnlink false (fcryptGetPostget b).2 = true) ∧
    (shredTemporaryFile content)[i]? = some 0 := by
  refine ⟨by decide, by decide, by decide, ?_⟩
  have hlen : i < 512 * ((content.length + 511) / 512) := by omega
  simp [shredTemporaryFile, List.getElem?_replicate, hlen]

/-- Witness for C9 on a three-byte file: the failure path of the encrypt
cleanup shreds before unlinking, and the shredded content is zero at the
first byte. -/
theorem fcrypt_shred_before_discard_witness :
    shredBeforeUnlink false (fcryptGpgCallAndCleanup true false).2 = true ∧
    (shredTemporaryFile [7, 7, 7])[0]? = some 0 :=
  ⟨(fcrypt_shred_before_discard [7, 7, 7] 0 (by decide)).1 true false,
   (fcrypt_shred_before_discard [7, 7, 7] 0 (by decide)).2.2.2⟩

end Fcrypt
